import Mathlib

/-!
Verification of the StudySprint kanban core (src/app.py): priority scoring,
subject completion, board partitioning, and the normalizer / focus-list
operations described by the specification.  Numeric fields are embedded as
integers and the scoring arithmetic as exact rationals.
-/

namespace StudySprint

/-- A topic record, embedding the fields of the `Topic` model / the sample-data
dicts in src/app.py: `id`, `title`, `difficulty` (1-10), `completion` (0-100)
and a `status` string. -/
structure Topic where
  id : Nat
  title : String
  difficulty : Int
  completion : Int
  status : String
deriving Repr, DecidableEq

/-- A subject owning a list of topics, as in the `SUBJECTS` sample data. -/
structure Subject where
  name : String
  topics : List Topic
deriving Repr, DecidableEq

/-- `priority_score` from src/app.py lines 97-101:
`remaining = 1 - completion / 100`, `difficulty_norm = difficulty / 10`,
result `remaining * (0.6 + 0.4 * difficulty_norm)`. -/
def priority_score (t : Topic) : ℚ :=
  let remaining : ℚ := 1 - (t.completion : ℚ) / 100
  let difficulty_norm : ℚ := (t.difficulty : ℚ) / 10
  remaining * (0.6 + 0.4 * difficulty_norm)

/-- Round-half-to-even, the semantics of Python's built-in `round` used at
src/app.py line 108. -/
def roundHalfEven (q : ℚ) : ℤ :=
  if q - ⌊q⌋ < 1 / 2 then ⌊q⌋
  else if 1 / 2 < q - ⌊q⌋ then ⌊q⌋ + 1
  else if 2 ∣ ⌊q⌋ then ⌊q⌋ else ⌊q⌋ + 1

/-- `subject_completion` from src/app.py lines 104-108: 0 on an empty topic
list, otherwise `round(sum(completions) / len(topics))`. -/
def subject_completion (s : Subject) : ℤ :=
  if s.topics = [] then 0
  else roundHalfEven (((s.topics.map (fun t => t.completion)).sum : ℚ) / (s.topics.length : ℚ))

/-- The arithmetic mean of a subject's completions, as a rational. -/
def meanCompletion (s : Subject) : ℚ :=
  ((s.topics.map (fun t => t.completion)).sum : ℚ) / (s.topics.length : ℚ)

/-- The three fixed column keys of the board, in the order they are built in
src/app.py lines 134-138. -/
def columnKeys : List String := ["not_started", "in_progress", "done"]

/-- The comparator realising Python's stable `sort(key=priority, reverse=True)`
at src/app.py line 150: `a` may come before `b` iff its priority is ≥. -/
def byPriorityDesc (a b : Topic) : Bool :=
  decide (priority_score b ≤ priority_score a)

/-- Stable sort by descending priority score (src/app.py lines 149-150). -/
def sortByPriorityDesc (ts : List Topic) : List Topic :=
  ts.mergeSort byPriorityDesc

/-- The topics appended to column `k` by the loop at src/app.py lines 140-146:
exactly those whose `status` equals the column key, in input order. -/
def columnTopics (ts : List Topic) (k : String) : List Topic :=
  ts.filter (fun t => t.status = k)

/-- A finished board column: the matching topics stably sorted by descending
priority (src/app.py lines 140-150). -/
def boardColumn (ts : List Topic) (k : String) : List Topic :=
  sortByPriorityDesc (columnTopics ts k)

/-- The board built by the `subject` route (src/app.py lines 134-150): the
three fixed columns, each holding its stably-sorted matching topics. -/
def partition_into_columns (ts : List Topic) : List (String × List Topic) :=
  columnKeys.map (fun k => (k, boardColumn ts k))

/-- The "math" sample subject from the `SUBJECTS` dict in src/app.py,
completions [100,100,60,30,0,0,0]. -/
def mathSubject : Subject :=
  { name := "Mathematics"
    topics :=
      [ ⟨1, "Limits & Continuity", 6, 100, "done"⟩
      , ⟨2, "Derivatives", 7, 100, "done"⟩
      , ⟨3, "Integration Techniques", 9, 60, "in_progress"⟩
      , ⟨4, "Sequences & Series", 8, 30, "in_progress"⟩
      , ⟨5, "Multivariable Calculus", 10, 0, "not_started"⟩
      , ⟨6, "Differential Equations", 9, 0, "not_started"⟩
      , ⟨7, "Linear Algebra", 7, 0, "not_started"⟩ ] }

/-! ### Helper lemmas about round-half-to-even -/

lemma roundHalfEven_near (q : ℚ) : |(roundHalfEven q : ℚ) - q| ≤ 1 / 2 := by
  have h0 : (⌊q⌋ : ℚ) ≤ q := Int.floor_le q
  have h1 : q < ⌊q⌋ + 1 := Int.lt_floor_add_one q
  unfold roundHalfEven
  split_ifs with ha hb hc <;> rw [abs_le] <;> constructor <;> push_cast <;> linarith

lemma roundHalfEven_int_add_half (k : ℤ) :
    roundHalfEven ((k : ℚ) + 1 / 2) = if 2 ∣ k then k else k + 1 := by
  have hfloor : ⌊(k : ℚ) + 1 / 2⌋ = k := by
    rw [Int.floor_int_add]
    norm_num
  unfold roundHalfEven
  rw [hfloor]
  norm_num

/-! ### Claims about priority_score and subject_completion -/

/-- C3: `priority_score` computes exactly the spec formula
`(1 - completion/100) * (0.6 + 0.4 * (difficulty/10))`. -/
theorem priority_score_formula (t : Topic) :
    priority_score t =
      (1 - (t.completion : ℚ) / 100) * (0.6 + 0.4 * ((t.difficulty : ℚ) / 10)) := rfl

/-- C4: with difficulty in [1,10] and completion in [0,100] the score lies in
[0,1], and completion = 100 forces score 0 whatever the difficulty. -/
theorem priority_score_range (t : Topic) (h1 : 1 ≤ t.difficulty) (h2 : t.difficulty ≤ 10)
    (h3 : 0 ≤ t.completion) (h4 : t.completion ≤ 100) :
    0 ≤ priority_score t ∧ priority_score t ≤ 1 ∧
      (t.completion = 100 → priority_score t = 0) := by
  have hd1 : (1 : ℚ) ≤ (t.difficulty : ℚ) := by exact_mod_cast h1
  have hd2 : (t.difficulty : ℚ) ≤ 10 := by exact_mod_cast h2
  have hc1 : (0 : ℚ) ≤ (t.completion : ℚ) := by exact_mod_cast h3
  have hc2 : (t.completion : ℚ) ≤ 100 := by exact_mod_cast h4
  unfold priority_score
  refine ⟨by nlinarith, by nlinarith, fun hc => ?_⟩
  rw [hc]
  norm_num

theorem priority_score_range_witness :
    (1 : ℤ) ≤ 8 ∧ (8 : ℤ) ≤ 10 ∧ (0 : ℤ) ≤ 30 ∧ (30 : ℤ) ≤ 100 ∧
      (0 ≤ priority_score ⟨4, "Sequences & Series", 8, 30, "in_progress"⟩ ∧
        priority_score ⟨4, "Sequences & Series", 8, 30, "in_progress"⟩ ≤ 1 ∧
        (Topic.completion ⟨4, "Sequences & Series", 8, 30, "in_progress"⟩ = 100 →
          priority_score ⟨4, "Sequences & Series", 8, 30, "in_progress"⟩ = 0)) :=
  ⟨by decide, by decide, by decide, by decide,
    priority_score_range ⟨4, "Sequences & Series", 8, 30, "in_progress"⟩
      (by decide) (by decide) (by decide) (by decide)⟩

/-- C5: at fixed difficulty (in [1,10]) the score strictly decreases in
completion, and at fixed completion below 100 it strictly increases in
difficulty. -/
theorem priority_score_monotone :
    (∀ a b : Topic, a.difficulty = b.difficulty → 1 ≤ a.difficulty → a.difficulty ≤ 10 →
      0 ≤ a.completion → a.completion < b.completion → b.completion ≤ 100 →
      priority_score b < priority_score a) ∧
    (∀ a b : Topic, a.completion = b.completion → 0 ≤ a.completion → a.completion < 100 →
      1 ≤ a.difficulty → a.difficulty < b.difficulty → b.difficulty ≤ 10 →
      priority_score a < priority_score b) := by
  constructor
  · intro a b hd h1 h2 h3 h4 h5
    have hd1 : (1 : ℚ) ≤ (a.difficulty : ℚ) := by exact_mod_cast h1
    have hdq : (a.difficulty : ℚ) = (b.difficulty : ℚ) := by exact_mod_cast hd
    have hc : (a.completion : ℚ) < (b.completion : ℚ) := by exact_mod_cast h4
    unfold priority_score
    rw [← hdq]
    nlinarith
  · intro a b hc h1 h2 h3 h4 h5
    have hcq : (a.completion : ℚ) = (b.completion : ℚ) := by exact_mod_cast hc
    have hc2 : (a.completion : ℚ) < 100 := by exact_mod_cast h2
    have hd : (a.difficulty : ℚ) < (b.difficulty : ℚ) := by exact_mod_cast h4
    unfold priority_score
    rw [← hcq]
    nlinarith

theorem priority_score_monotone_witness :
    priority_score ⟨4, "Sequences & Series", 8, 30, "in_progress"⟩ <
      priority_score ⟨3, "Integration Techniques", 8, 10, "in_progress"⟩ ∧
    priority_score ⟨7, "Linear Algebra", 7, 0, "not_started"⟩ <
      priority_score ⟨5, "Multivariable Calculus", 10, 0, "not_started"⟩ :=
  ⟨priority_score_monotone.1 ⟨3, "Integration Techniques", 8, 10, "in_progress"⟩
      ⟨4, "Sequences & Series", 8, 30, "in_progress"⟩
      (by decide) (by decide) (by decide) (by decide) (by decide) (by decide),
    priority_score_monotone.2 ⟨7, "Linear Algebra", 7, 0, "not_started"⟩
      ⟨5, "Multivariable Calculus", 10, 0, "not_started"⟩
      (by decide) (by decide) (by decide) (by decide) (by decide) (by decide)⟩

/-- C6: on a non-empty subject, `subject_completion` is the mean completion
rounded to a nearest integer (distance at most 1/2), and on the "math" sample
with completions [100,100,60,30,0,0,0] it returns 41. -/
theorem subject_completion_rounded_mean :
    (∀ s : Subject, s.topics ≠ [] →
      subject_completion s = roundHalfEven (meanCompletion s) ∧
        |(subject_completion s : ℚ) - meanCompletion s| ≤ 1 / 2) ∧
    subject_completion mathSubject = 41 := by
  constructor
  · intro s hs
    have h : subject_completion s = roundHalfEven (meanCompletion s) := by
      unfold subject_completion meanCompletion
      rw [if_neg hs]
    exact ⟨h, h ▸ roundHalfEven_near (meanCompletion s)⟩
  · norm_num [subject_completion, mathSubject, roundHalfEven, List.cons_ne_nil]

theorem subject_completion_rounded_mean_witness :
    mathSubject.topics ≠ [] ∧
      (subject_completion mathSubject = roundHalfEven (meanCompletion mathSubject) ∧
        |(subject_completion mathSubject : ℚ) - meanCompletion mathSubject| ≤ 1 / 2) :=
  ⟨by simp [mathSubject], subject_completion_rounded_mean.1 mathSubject (by simp [mathSubject])⟩

/-- C7: a subject owning no topics gets completion 0; the rounded-mean branch
(the only one containing the division) is reached only on non-empty lists. -/
theorem subject_completion_empty (s : Subject) (h : s.topics = []) :
    subject_completion s = 0 := by
  unfold subject_completion
  rw [if_pos h]

theorem subject_completion_empty_witness :
    Subject.topics ⟨"Empty", []⟩ = [] ∧ subject_completion ⟨"Empty", []⟩ = 0 :=
  ⟨rfl, subject_completion_empty ⟨"Empty", []⟩ rfl⟩

/-- C10: when the mean completion is exactly an integer plus one half,
`subject_completion` returns the even endpoint (Python round-half-to-even),
never unconditionally rounding half up. -/
theorem subject_completion_half_even (s : Subject) (k : ℤ) (hne : s.topics ≠ [])
    (hmean : meanCompletion s = (k : ℚ) + 1 / 2) :
    subject_completion s = (if 2 ∣ k then k else k + 1) ∧ 2 ∣ subject_completion s := by
  have h : subject_completion s = roundHalfEven (meanCompletion s) := by
    unfold subject_completion meanCompletion
    rw [if_neg hne]
  rw [h, hmean, roundHalfEven_int_add_half]
  refine ⟨rfl, ?_⟩
  split_ifs with hk
  · exact hk
  · omega

theorem subject_completion_half_even_witness :
    Subject.topics ⟨"S", [⟨1, "a", 5, 0, "not_started"⟩, ⟨2, "b", 5, 1, "not_started"⟩]⟩ ≠ [] ∧
    meanCompletion ⟨"S", [⟨1, "a", 5, 0, "not_started"⟩, ⟨2, "b", 5, 1, "not_started"⟩]⟩ =
      ((0 : ℤ) : ℚ) + 1 / 2 ∧
    (subject_completion ⟨"S", [⟨1, "a", 5, 0, "not_started"⟩, ⟨2, "b", 5, 1, "not_started"⟩]⟩ =
        (if 2 ∣ (0 : ℤ) then (0 : ℤ) else 0 + 1) ∧
      2 ∣ subject_completion ⟨"S", [⟨1, "a", 5, 0, "not_started"⟩, ⟨2, "b", 5, 1, "not_started"⟩]⟩) :=
  ⟨by simp, by norm_num [meanCompletion],
    subject_completion_half_even ⟨"S", [⟨1, "a", 5, 0, "not_started"⟩, ⟨2, "b", 5, 1, "not_started"⟩]⟩
      0 (by simp) (by norm_num [meanCompletion])⟩

/-! ### Stable sorting facts for the board -/

lemma byPriorityDesc_trans (a b c : Topic) :
    byPriorityDesc a b → byPriorityDesc b c → byPriorityDesc a c := by
  simp only [byPriorityDesc, decide_eq_true_eq]
  exact fun h1 h2 => le_trans h2 h1

lemma byPriorityDesc_total (a b : Topic) : byPriorityDesc a b || byPriorityDesc b a := by
  simp only [byPriorityDesc, Bool.or_eq_true, decide_eq_true_eq]
  exact le_total _ _

/-- Elements picked out by a predicate that forces mutual `byPriorityDesc`
keep their original relative order through the sort: the filtered output
equals the filtered input. -/
lemma sortByPriorityDesc_filter_stable (l : List Topic) (p : Topic → Bool)
    (hp : ∀ a b : Topic, p a → p b → byPriorityDesc a b) :
    (sortByPriorityDesc l).filter p = l.filter p := by
  have hpw : (l.filter p).Pairwise (fun a b => byPriorityDesc a b) :=
    List.pairwise_of_forall_mem_list fun a ha b hb =>
      hp a b (List.of_mem_filter ha) (List.of_mem_filter hb)
  have hsub : List.Sublist (l.filter p) (sortByPriorityDesc l) :=
    List.sublist_mergeSort byPriorityDesc_trans byPriorityDesc_total hpw (List.filter_sublist l)
  have hsub2 : List.Sublist (l.filter p) ((sortByPriorityDesc l).filter p) := by
    have h := hsub.filter p
    rwa [List.filter_filter, (by
      funext a
      cases p a <;> simp : (fun a => p a && p a) = p)] at h
  have hperm : ((sortByPriorityDesc l).filter p).Perm (l.filter p) :=
    (List.mergeSort_perm l byPriorityDesc).filter p
  exact (hsub2.eq_of_length hperm.length_eq.symm).symm

lemma mem_boardColumn {ts : List Topic} {t : Topic} {k : String} :
    t ∈ boardColumn ts k ↔ t ∈ ts ∧ t.status = k := by
  simp [boardColumn, sortByPriorityDesc, columnTopics, List.mem_filter]

/-- C1: on topics with valid statuses the board has exactly the three columns
not_started, in_progress, done; each column is a permutation of its matching
topics, sorted by priority descending, with equal-score topics keeping their
input order; and every topic lands in exactly one column. -/
theorem board_partition_columns (ts : List Topic)
    (hv : ∀ t ∈ ts, t.status ∈ columnKeys) :
    (partition_into_columns ts).map Prod.fst = ["not_started", "in_progress", "done"] ∧
    (∀ k l, (k, l) ∈ partition_into_columns ts →
      l.Perm (columnTopics ts k) ∧
      l.Pairwise (fun a b => priority_score b ≤ priority_score a) ∧
      (∀ q : ℚ, l.filter (fun t => decide (priority_score t = q)) =
        (columnTopics ts k).filter (fun t => decide (priority_score t = q)))) ∧
    (∀ t ∈ ts, ∃! k, k ∈ columnKeys ∧ t ∈ boardColumn ts k) := by
  refine ⟨rfl, ?_, ?_⟩
  · intro k l hkl
    obtain ⟨k', hk', heq⟩ := List.mem_map.1 hkl
    obtain ⟨rfl, rfl⟩ : k' = k ∧ boardColumn ts k' = l :=
      ⟨congrArg Prod.fst heq, congrArg Prod.snd heq⟩
    refine ⟨List.mergeSort_perm _ _, ?_, ?_⟩
    · exact (List.sorted_mergeSort byPriorityDesc_trans byPriorityDesc_total
        (columnTopics ts k')).imp (by
          simp only [byPriorityDesc, decide_eq_true_eq]
          exact fun h => h)
    · intro q
      exact sortByPriorityDesc_filter_stable (columnTopics ts k') _ (by
        simp only [byPriorityDesc, decide_eq_true_eq]
        exact fun a b ha hb => le_of_eq (hb.trans ha.symm))
  · intro t ht
    refine ⟨t.status, ⟨hv t ht, mem_boardColumn.2 ⟨ht, rfl⟩⟩, ?_⟩
    intro k hk
    exact (mem_boardColumn.1 hk.2).2.symm

theorem board_partition_columns_witness :
    (∀ t ∈ mathSubject.topics, t.status ∈ columnKeys) ∧
    ((partition_into_columns mathSubject.topics).map Prod.fst =
        ["not_started", "in_progress", "done"] ∧
      (∀ k l, (k, l) ∈ partition_into_columns mathSubject.topics →
        l.Perm (columnTopics mathSubject.topics k) ∧
        l.Pairwise (fun a b => priority_score b ≤ priority_score a) ∧
        (∀ q : ℚ, l.filter (fun t => decide (priority_score t = q)) =
          (columnTopics mathSubject.topics k).filter
            (fun t => decide (priority_score t = q)))) ∧
      (∀ t ∈ mathSubject.topics, ∃! k, k ∈ columnKeys ∧
        t ∈ boardColumn mathSubject.topics k)) :=
  ⟨by decide, board_partition_columns mathSubject.topics (by decide)⟩

/-- C2 as stated is false: the loop at src/app.py lines 140-146 only appends a
topic when its status is a column key, so a topic with status "weird" appears
in no column at all, not in not_started. -/
theorem board_unknown_status_cex :
    (⟨1, "a", 5, 0, "weird"⟩ : Topic) ∉
      boardColumn [⟨1, "a", 5, 0, "weird"⟩] "not_started" ∧
    partition_into_columns [⟨1, "a", 5, 0, "weird"⟩] =
      [("not_started", []), ("in_progress", []), ("done", [])] := by
  constructor
  · simp [boardColumn, columnTopics, sortByPriorityDesc]
  · simp [partition_into_columns, columnKeys, boardColumn, columnTopics, sortByPriorityDesc]

/-- C2 amended: a topic whose status maps to no known column is omitted from
every column of the board, while a topic with a recognized status appears in
exactly one column. -/
theorem board_unknown_status_omitted (ts : List Topic) (t : Topic) (ht : t ∈ ts) :
    (t.status ∉ columnKeys → ∀ k l, (k, l) ∈ partition_into_columns ts → t ∉ l) ∧
    (t.status ∈ columnKeys → ∃! k, k ∈ columnKeys ∧ t ∈ boardColumn ts k) := by
  constructor
  · intro hbad k l hkl hmem
    obtain ⟨k', hk', heq⟩ := List.mem_map.1 hkl
    obtain ⟨rfl, rfl⟩ : k' = k ∧ boardColumn ts k' = l :=
      ⟨congrArg Prod.fst heq, congrArg Prod.snd heq⟩
    exact hbad ((mem_boardColumn.1 hmem).2 ▸ hk')
  · intro hgood
    refine ⟨t.status, ⟨hgood, mem_boardColumn.2 ⟨ht, rfl⟩⟩, ?_⟩
    intro k hk
    exact (mem_boardColumn.1 hk.2).2.symm

theorem board_unknown_status_omitted_witness :
    (⟨1, "a", 5, 0, "weird"⟩ : Topic) ∈
      [(⟨1, "a", 5, 0, "weird"⟩ : Topic), ⟨2, "b", 7, 50, "in_progress"⟩] ∧
    ((Topic.status ⟨1, "a", 5, 0, "weird"⟩ ∉ columnKeys →
      ∀ k l, (k, l) ∈ partition_into_columns
          [(⟨1, "a", 5, 0, "weird"⟩ : Topic), ⟨2, "b", 7, 50, "in_progress"⟩] →
        (⟨1, "a", 5, 0, "weird"⟩ : Topic) ∉ l) ∧
     (Topic.status ⟨1, "a", 5, 0, "weird"⟩ ∈ columnKeys →
      ∃! k, k ∈ columnKeys ∧ (⟨1, "a", 5, 0, "weird"⟩ : Topic) ∈
        boardColumn [(⟨1, "a", 5, 0, "weird"⟩ : Topic), ⟨2, "b", 7, 50, "in_progress"⟩] k)) :=
  ⟨by decide, board_unknown_status_omitted
    [⟨1, "a", 5, 0, "weird"⟩, ⟨2, "b", 7, 50, "in_progress"⟩]
    ⟨1, "a", 5, 0, "weird"⟩ (by decide)⟩

/-! ### Spec-modelled operations: focus list and field normalizer -/

/-- Modelled from the spec: `focus_list` (§4.2) is described by the
specification but no such function exists in src/app.py.  Filter to topics
with completion < 100, stable-sort by priority descending, truncate to the
first `limit`. -/
def focus_list (ts : List Topic) (limit : Nat) : List Topic :=
  (sortByPriorityDesc (ts.filter (fun t => decide (t.completion < 100)))).take limit

/-- Strip leading and trailing whitespace from a character list (the
semantics of Python's `str.strip`, kept kernel-computable). -/
def trimChars (cs : List Char) : List Char :=
  ((cs.dropWhile Char.isWhitespace).reverse.dropWhile Char.isWhitespace).reverse

/-- Whitespace-trimming on strings, via `trimChars`. -/
def trimStr (s : String) : String := String.mk (trimChars s.data)

/-- Modelled from the spec: numeric value of a digit string, the core of the
normalizer's integer parsing (§4.1). -/
def digitsVal (cs : List Char) : Nat :=
  cs.foldl (fun n c => 10 * n + (c.toNat - 48)) 0

/-- Modelled from the spec: "parse as integer; on parse failure or missing
input, default" (§4.1).  Trims whitespace, accepts an optional sign followed
by digits, and falls back to the default otherwise. -/
def parseIntOr (s : String) (dflt : Int) : Int :=
  match trimChars s.data with
  | [] => dflt
  | '-' :: rest =>
      if rest ≠ [] ∧ rest.all Char.isDigit then -(digitsVal rest : Int) else dflt
  | '+' :: rest =>
      if rest ≠ [] ∧ rest.all Char.isDigit then (digitsVal rest : Int) else dflt
  | cs => if cs.all Char.isDigit then (digitsVal cs : Int) else dflt

/-- Clamp an integer into the inclusive range [lo, hi]. -/
def clamp (lo hi x : Int) : Int := max lo (min hi x)

/-- The three enumerated status display strings of the Domain Model. -/
def statusValues : List String := ["Not Started", "In Progress", "Done"]

/-- Modelled from the spec: `normalize_topic_fields` (§4.1) is described by
the specification but no such function exists in src/app.py.  Trim the title;
parse difficulty with default 5 and clamp to [1,10]; parse completion with
default 0 and clamp to [0,100]; unknown status falls back to "Not Started";
a resulting status of "Done" forces completion to 100. -/
def normalize_topic_fields (title dRaw cRaw sRaw : String) :
    String × Int × Int × String :=
  let t := trimStr title
  let d := clamp 1 10 (parseIntOr dRaw 5)
  let c0 := clamp 0 100 (parseIntOr cRaw 0)
  let st := if sRaw ∈ statusValues then sRaw else "Not Started"
  let c := if st = "Done" then 100 else c0
  (t, d, c, st)

lemma le_clamp (lo hi x : ℤ) : lo ≤ clamp lo hi x := le_max_left _ _

lemma clamp_le (lo hi x : ℤ) (h : lo ≤ hi) : clamp lo hi x ≤ hi :=
  max_le h (min_le_left _ _)

/-- The topic list of the spec's focus-list test case, completions
[100,100,80,50,0,0,0,0]. -/
def focusSample : List Topic :=
  [ ⟨1, "a", 4, 100, "done"⟩
  , ⟨2, "b", 5, 100, "done"⟩
  , ⟨3, "c", 6, 80, "in_progress"⟩
  , ⟨4, "d", 6, 50, "in_progress"⟩
  , ⟨5, "e", 8, 0, "not_started"⟩
  , ⟨6, "f", 8, 0, "not_started"⟩
  , ⟨7, "g", 9, 0, "not_started"⟩
  , ⟨8, "h", 5, 0, "not_started"⟩ ]

/-- C8: `focus_list` keeps exactly the topics with completion < 100, stably
sorted by priority descending, truncated to `limit`; empty input gives an
empty list, and when fewer than `limit` topics qualify it returns all of
them. -/
theorem focus_list_correct (ts : List Topic) (limit : Nat) :
    (∃ l : List Topic,
      focus_list ts limit = l.take limit ∧
      l.Perm (ts.filter (fun t => decide (t.completion < 100))) ∧
      l.Pairwise (fun a b => priority_score b ≤ priority_score a) ∧
      (∀ q : ℚ, l.filter (fun t => decide (priority_score t = q)) =
        (ts.filter (fun t => decide (t.completion < 100))).filter
          (fun t => decide (priority_score t = q)))) ∧
    (∀ t ∈ focus_list ts limit, t ∈ ts ∧ t.completion < 100) ∧
    focus_list [] limit = [] ∧
    (focus_list ts limit).length =
      min limit (ts.filter (fun t => decide (t.completion < 100))).length ∧
    ((ts.filter (fun t => decide (t.completion < 100))).length ≤ limit →
      (focus_list ts limit).Perm (ts.filter (fun t => decide (t.completion < 100)))) := by
  refine ⟨⟨sortByPriorityDesc (ts.filter (fun t => decide (t.completion < 100))),
    rfl, List.mergeSort_perm _ _, ?_, ?_⟩, ?_, ?_, ?_, ?_⟩
  · exact (List.sorted_mergeSort byPriorityDesc_trans byPriorityDesc_total _).imp (by
      simp only [byPriorityDesc, decide_eq_true_eq]
      exact fun h => h)
  · intro q
    exact sortByPriorityDesc_filter_stable _ _ (by
      simp only [byPriorityDesc, decide_eq_true_eq]
      exact fun a b ha hb => le_of_eq (hb.trans ha.symm))
  · intro t htk
    have h1 : t ∈ sortByPriorityDesc (ts.filter (fun t => decide (t.completion < 100))) :=
      List.mem_of_mem_take htk
    rw [sortByPriorityDesc, List.mem_mergeSort, List.mem_filter] at h1
    exact ⟨h1.1, by simpa using h1.2⟩
  · simp [focus_list, sortByPriorityDesc]
  · simp [focus_list, sortByPriorityDesc]
  · intro h
    rw [focus_list, List.take_of_length_le (by simpa [sortByPriorityDesc] using h)]
    exact List.mergeSort_perm _ _

theorem focus_list_correct_witness :
    (∃ l : List Topic,
      focus_list focusSample 5 = l.take 5 ∧
      l.Perm (focusSample.filter (fun t => decide (t.completion < 100))) ∧
      l.Pairwise (fun a b => priority_score b ≤ priority_score a) ∧
      (∀ q : ℚ, l.filter (fun t => decide (priority_score t = q)) =
        (focusSample.filter (fun t => decide (t.completion < 100))).filter
          (fun t => decide (priority_score t = q)))) ∧
    (∀ t ∈ focus_list focusSample 5, t ∈ focusSample ∧ t.completion < 100) ∧
    focus_list [] 5 = [] ∧
    (focus_list focusSample 5).length =
      min 5 (focusSample.filter (fun t => decide (t.completion < 100))).length ∧
    ((focusSample.filter (fun t => decide (t.completion < 100))).length ≤ 5 →
      (focus_list focusSample 5).Perm
        (focusSample.filter (fun t => decide (t.completion < 100)))) :=
  focus_list_correct focusSample 5

/-- C9: the normalizer always yields a valid tuple: trimmed title, difficulty
parsed with default 5 then clamped to [1,10], completion parsed with default
0 then clamped to [0,100], unknown status replaced by "Not Started", a "Done"
status forcing completion 100; and on ("Algebra","15","-5","Done") it returns
("Algebra", 10, 100, "Done"). -/
theorem normalize_topic_fields_valid (title dRaw cRaw sRaw : String) :
    (normalize_topic_fields title dRaw cRaw sRaw).1 = trimStr title ∧
    1 ≤ (normalize_topic_fields title dRaw cRaw sRaw).2.1 ∧
    (normalize_topic_fields title dRaw cRaw sRaw).2.1 ≤ 10 ∧
    0 ≤ (normalize_topic_fields title dRaw cRaw sRaw).2.2.1 ∧
    (normalize_topic_fields title dRaw cRaw sRaw).2.2.1 ≤ 100 ∧
    (normalize_topic_fields title dRaw cRaw sRaw).2.2.2 ∈ statusValues ∧
    ((normalize_topic_fields title dRaw cRaw sRaw).2.2.2 = "Done" →
      (normalize_topic_fields title dRaw cRaw sRaw).2.2.1 = 100) ∧
    (sRaw ∉ statusValues →
      (normalize_topic_fields title dRaw cRaw sRaw).2.2.2 = "Not Started") ∧
    normalize_topic_fields "Algebra" "15" "-5" "Done" = ("Algebra", 10, 100, "Done") := by
  refine ⟨rfl, le_clamp _ _ _, clamp_le _ _ _ (by decide), ?_, ?_, ?_, ?_, ?_, by decide⟩
  · show (0 : ℤ) ≤ if ((if sRaw ∈ statusValues then sRaw else "Not Started") = "Done")
      then 100 else clamp 0 100 (parseIntOr cRaw 0)
    split_ifs <;> first
    | decide
    | exact le_clamp _ _ _
  · show (if ((if sRaw ∈ statusValues then sRaw else "Not Started") = "Done")
      then (100 : ℤ) else clamp 0 100 (parseIntOr cRaw 0)) ≤ 100
    split_ifs <;> first
    | decide
    | exact clamp_le _ _ _ (by decide)
  · show (if sRaw ∈ statusValues then sRaw else "Not Started") ∈ statusValues
    split_ifs with h
    · exact h
    · decide
  · intro h
    have h' : (if sRaw ∈ statusValues then sRaw else "Not Started") = "Done" := h
    show (if ((if sRaw ∈ statusValues then sRaw else "Not Started") = "Done")
      then (100 : ℤ) else clamp 0 100 (parseIntOr cRaw 0)) = 100
    rw [if_pos h']
  · intro h
    show (if sRaw ∈ statusValues then sRaw else "Not Started") = "Not Started"
    rw [if_neg h]

theorem normalize_topic_fields_valid_witness :
    (normalize_topic_fields "Algebra" "15" "-5" "Done").1 = trimStr "Algebra" ∧
    1 ≤ (normalize_topic_fields "Algebra" "15" "-5" "Done").2.1 ∧
    (normalize_topic_fields "Algebra" "15" "-5" "Done").2.1 ≤ 10 ∧
    0 ≤ (normalize_topic_fields "Algebra" "15" "-5" "Done").2.2.1 ∧
    (normalize_topic_fields "Algebra" "15" "-5" "Done").2.2.1 ≤ 100 ∧
    (normalize_topic_fields "Algebra" "15" "-5" "Done").2.2.2 ∈ statusValues ∧
    ((normalize_topic_fields "Algebra" "15" "-5" "Done").2.2.2 = "Done" →
      (normalize_topic_fields "Algebra" "15" "-5" "Done").2.2.1 = 100) ∧
    ("Done" ∉ statusValues →
      (normalize_topic_fields "Algebra" "15" "-5" "Done").2.2.2 = "Not Started") ∧
    normalize_topic_fields "Algebra" "15" "-5" "Done" = ("Algebra", 10, 100, "Done") :=
  normalize_topic_fields_valid "Algebra" "15" "-5" "Done"

end StudySprint
